import Mathlib

/-!
Verification development for the QuizApp repository (`src/practice.py`).

The file shallowly embeds the quiz-bank compiler (notes parsing, token
resolution, record normalization) and the quiz session engine (sampling,
answer bookkeeping, break handling, review/export rendering) as executable
Lean definitions, and proves or refutes the frozen specification claims
about them.

Modelling conventions:
  * Python `str.strip()` is modelled by `pyStrip` (drop Unicode whitespace
    from both ends, using `Char.isWhitespace`).
  * Python `str.upper()` / `str.lower()` are modelled per character with
    `Char.toUpper` / `Char.toLower` (ASCII case mapping; all letters the
    program compares are ASCII).
  * Python `set` values are modelled by `Finset String`; every place the
    program iterates a set feeds a set-valued accumulator, so iteration
    order is irrelevant and the `Finset` model is exact.
  * Randomness (`random.shuffle`, `random.sample`, `random.choice`) is
    modelled by oracle arguments; theorems hypothesise exactly the
    contracts those library functions guarantee (a shuffle is a
    permutation, a sample is a list of distinct in-range indices, ...).
-/

/-! ## String helpers: Python `str.strip` -/

/-- Characters dropped from the left end by Python `str.strip()`:
`stripChars` drops whitespace from both ends of a character list. -/
def stripChars (l : List Char) : List Char :=
  (((l.dropWhile Char.isWhitespace).reverse.dropWhile Char.isWhitespace)).reverse

/-- Python `s.strip()`. -/
def pyStrip (s : String) : String := ⟨stripChars s.data⟩

/-- Python `s.lower()` (per-character, ASCII case mapping). -/
def pyLower (s : String) : String := ⟨s.data.map Char.toLower⟩

/-- Python `s.upper()` (per-character, ASCII case mapping). -/
def pyUpper (s : String) : String := ⟨s.data.map Char.toUpper⟩

theorem dropWhile_dropWhile (p : α → Bool) (l : List α) :
    (l.dropWhile p).dropWhile p = l.dropWhile p := by
  induction l with
  | nil => rfl
  | cons c t ih =>
    by_cases h : p c <;> simp [List.dropWhile_cons, h, ih]

theorem head_dropWhile_false (p : α → Bool) (l : List α) (c : α)
    (h : (l.dropWhile p).head? = some c) : p c = false := by
  induction l with
  | nil => simp at h
  | cons a t ih =>
    by_cases ha : p a
    · simpa [List.dropWhile_cons, ha] using ih (by simpa [List.dropWhile_cons, ha] using h)
    · simp [List.dropWhile_cons, ha] at h
      simpa [← h] using ha

theorem dropWhile_eq_self_of_head (p : α → Bool) (l : List α)
    (h : ∀ c, l.head? = some c → p c = false) : l.dropWhile p = l := by
  cases l with
  | nil => rfl
  | cons a t => simp [List.dropWhile_cons, h a rfl]

theorem rstrip_prefix (p : α → Bool) (d : List α) :
    ∃ t, (d.reverse.dropWhile p).reverse ++ t = d := by
  refine ⟨(d.reverse.takeWhile p).reverse, ?_⟩
  rw [← List.reverse_append, List.takeWhile_append_dropWhile, List.reverse_reverse]

theorem head_of_rstrip (p : α → Bool) (d : List α) (c : α)
    (h : ((d.reverse.dropWhile p).reverse).head? = some c) : d.head? = some c := by
  obtain ⟨t, ht⟩ := rstrip_prefix p d
  cases h' : (d.reverse.dropWhile p).reverse with
  | nil => rw [h'] at h; simp at h
  | cons x xs =>
    rw [h'] at h ht
    simp at h
    rw [← ht, ← h]
    rfl

theorem stripChars_idem (l : List Char) : stripChars (stripChars l) = stripChars l := by
  have hde : (stripChars l).dropWhile Char.isWhitespace = stripChars l := by
    apply dropWhile_eq_self_of_head
    intro c hc
    exact head_dropWhile_false Char.isWhitespace l c
      (head_of_rstrip Char.isWhitespace (l.dropWhile Char.isWhitespace) c hc)
  have hrev : (stripChars l).reverse
      = (l.dropWhile Char.isWhitespace).reverse.dropWhile Char.isWhitespace := by
    unfold stripChars
    rw [List.reverse_reverse]
  calc stripChars (stripChars l)
      = (((stripChars l).dropWhile Char.isWhitespace).reverse.dropWhile
          Char.isWhitespace).reverse := rfl
    _ = ((stripChars l).reverse.dropWhile Char.isWhitespace).reverse := by rw [hde]
    _ = (((l.dropWhile Char.isWhitespace).reverse.dropWhile Char.isWhitespace).dropWhile
          Char.isWhitespace).reverse := by rw [hrev]
    _ = ((l.dropWhile Char.isWhitespace).reverse.dropWhile Char.isWhitespace).reverse := by
          rw [dropWhile_dropWhile]
    _ = stripChars l := rfl

theorem pyStrip_idem (s : String) : pyStrip (pyStrip s) = pyStrip s := by
  unfold pyStrip
  exact congrArg String.mk (stripChars_idem s.data)

theorem stripChars_append_ws (x w : List Char) (hw : ∀ c ∈ w, Char.isWhitespace c) :
    stripChars (x ++ w) = stripChars x := by
  unfold stripChars
  have hwnil : w.dropWhile Char.isWhitespace = [] :=
    List.dropWhile_eq_nil_iff.mpr fun c hc => hw c hc
  rw [List.dropWhile_append]
  by_cases hx : x.dropWhile Char.isWhitespace = []
  · simp [hx, hwnil]
  · rw [if_neg (by simp [hx]), List.reverse_append]
    have hwr : w.reverse.dropWhile Char.isWhitespace = [] :=
      List.dropWhile_eq_nil_iff.mpr fun c hc => hw c (List.mem_reverse.mp hc)
    rw [List.dropWhile_append, if_pos (by simp [hwr])]

theorem stripChars_ws_append (w x : List Char) (hw : ∀ c ∈ w, Char.isWhitespace c) :
    stripChars (w ++ x) = stripChars x := by
  unfold stripChars
  have : (w ++ x).dropWhile Char.isWhitespace = x.dropWhile Char.isWhitespace := by
    rw [List.dropWhile_append]
    have hwnil : w.dropWhile Char.isWhitespace = [] :=
      List.dropWhile_eq_nil_iff.mpr fun c hc => hw c hc
    simp [hwnil]
  rw [this]

/-! ## Data model (`QuizItem` / normalized bank records, `practice.py` lines 274-314) -/

/-- A normalized bank record, the output shape of `normalize_quiz_records`
(and the contract consumed by the session engine). -/
structure QuizRecord where
  question : String
  options : List String
  answer : Finset String
  explanation : String
  image : Option String
  multi : Bool
deriving DecidableEq

instance : Inhabited QuizRecord := ⟨⟨"", [], ∅, "", none, false⟩⟩

/-- Tolerated shapes of the `"answer"` value of an ingested record:
absent/None, a string, a list, a set, or a tuple (of stringly values). -/
inductive AnswerField
  | absent
  | str (s : String)
  | list (xs : List String)
  | set (s : Finset String)
  | tuple (xs : List String)
deriving DecidableEq

/-- Tolerated shapes of the `"options"` (or fallback `"answers"`) value:
absent, a list, or a mapping whose values are used (in order). -/
inductive OptionsField
  | absent
  | list (xs : List String)
  | map (vals : List String)
deriving DecidableEq

/-- An ingested (pre-normalization) record in any tolerated shape.
`multiF = none` models an absent `"multi"` key. -/
structure RawRecord where
  question : String
  optionsF : OptionsField
  answersF : OptionsField
  answerF : AnswerField
  explanation : String
  image : Option String
  multiF : Option Bool
deriving DecidableEq

/-- The underlying value list of an options-shaped field (`list(opts.values())`
for a mapping); an absent field contributes the empty (falsy) value. -/
def OptionsField.vals : OptionsField → List String
  | .absent => []
  | .list xs => xs
  | .map vs => vs

/-- `item.get("options") or item.get("answers") or []` with Python falsiness
(an empty list/dict and an absent key all fall through). -/
def optsOf (r : RawRecord) : List String :=
  if r.optionsF.vals.isEmpty then r.answersF.vals else r.optionsF.vals

/-- The `correct` set computed by `normalize_quiz_records`:
`item.get("answer") or set()`, then per-shape
`{str(x).strip() for x in correct_raw if str(x).strip()}`
(a falsy value — absent, empty string, empty collection — yields `set()`,
which coincides with running the comprehension on the empty value). -/
def answerSetOf : AnswerField → Finset String
  | .absent => ∅
  | .str s => if pyStrip s = "" then ∅ else {pyStrip s}
  | .list xs => (((xs.map pyStrip).filter (fun x => x ≠ ""))).toFinset
  | .tuple xs => (((xs.map pyStrip).filter (fun x => x ≠ ""))).toFinset
  | .set s => (s.filter (fun x => pyStrip x ≠ "")).image pyStrip

/-- One iteration of `normalize_quiz_records` (`practice.py` lines 286-313):
trim the question, select/trim/filter the options, coerce the answer to a
set of trimmed non-empty strings, trim the explanation, null out a falsy
image, and take `bool(item.get("multi", len(correct) > 1))` — note the
default is used only when the `"multi"` key is absent. -/
def normalizeRecord (item : RawRecord) : QuizRecord :=
  let q := pyStrip item.question
  let opts := (optsOf item).map pyStrip |>.filter (fun o => o ≠ "")
  let correct := answerSetOf item.answerF
  let explanation := pyStrip item.explanation
  let imagePath : Option String :=
    match item.image with
    | some s => if s = "" then none else some s
    | none => none
  let multi : Bool :=
    match item.multiF with
    | some b => b
    | none => decide (1 < correct.card)
  ⟨q, opts, correct, explanation, imagePath, multi⟩

/-- `normalize_quiz_records` over a list of ingested records. -/
def normalize_quiz_records (raw_items : List RawRecord) : List QuizRecord :=
  raw_items.map normalizeRecord

/-- Re-inject a normalized record into the tolerated input shape (the shape
`normalize_quiz_records` itself emits: options as a list, answer as a set,
an explicit `multi` flag). -/
def QuizRecord.toRaw (q : QuizRecord) : RawRecord :=
  ⟨q.question, .list q.options, .absent, .set q.answer, q.explanation, q.image, some q.multi⟩

/-! ## Properties of normalization (claims C4, C5) -/

theorem mem_answerSetOf_stripped (f : AnswerField) (x : String) (hx : x ∈ answerSetOf f) :
    pyStrip x = x ∧ x ≠ "" := by
  cases f with
  | absent => simp [answerSetOf] at hx
  | str s =>
    by_cases h : pyStrip s = ""
    · simp [answerSetOf, h] at hx
    · simp [answerSetOf, h] at hx
      subst hx
      exact ⟨pyStrip_idem s, h⟩
  | list xs =>
    simp [answerSetOf, List.mem_filter] at hx
    obtain ⟨⟨y, _, hy⟩, hne⟩ := hx
    subst hy
    exact ⟨pyStrip_idem y, by simpa using hne⟩
  | tuple xs =>
    simp [answerSetOf, List.mem_filter] at hx
    obtain ⟨⟨y, _, hy⟩, hne⟩ := hx
    subst hy
    exact ⟨pyStrip_idem y, by simpa using hne⟩
  | set s =>
    simp [answerSetOf] at hx
    obtain ⟨y, ⟨_, hne⟩, hy⟩ := hx
    subst hy
    exact ⟨pyStrip_idem y, hne⟩

theorem answerSetOf_set_self (s : Finset String)
    (h : ∀ x ∈ s, pyStrip x = x ∧ x ≠ "") : answerSetOf (.set s) = s := by
  show (s.filter (fun x => pyStrip x ≠ "")).image pyStrip = s
  have hf : s.filter (fun x => pyStrip x ≠ "") = s := by
    apply Finset.filter_true_of_mem
    intro x hx
    rw [(h x hx).1]
    exact (h x hx).2
  rw [hf]
  have : ∀ x ∈ s, pyStrip x = id x := fun x hx => (h x hx).1
  rw [Finset.image_congr this, Finset.image_id]

theorem mem_normOpts_stripped (l : List String) (o : String)
    (ho : o ∈ (l.map pyStrip |>.filter (fun o => o ≠ ""))) :
    pyStrip o = o ∧ o ≠ "" := by
  simp [List.mem_filter] at ho
  obtain ⟨⟨y, _, hy⟩, hne⟩ := ho
  subst hy
  exact ⟨pyStrip_idem y, by simpa using hne⟩

theorem normOpts_self (l : List String) (h : ∀ o ∈ l, pyStrip o = o ∧ o ≠ "") :
    (l.map pyStrip |>.filter (fun o => o ≠ "")) = l := by
  have hm : l.map pyStrip = l := by
    have h1 : l.map pyStrip = l.map id := List.map_congr_left fun o ho => (h o ho).1
    simpa using h1
  rw [hm]
  exact List.filter_eq_self.mpr fun a ha => by simpa using (h a ha).2

theorem normalizeRecord_image_ne (r : RawRecord) (s : String)
    (h : (normalizeRecord r).image = some s) : s ≠ "" := by
  unfold normalizeRecord at h
  cases him : r.image with
  | none => rw [him] at h; simp at h
  | some t =>
    rw [him] at h
    by_cases ht : t = ""
    · simp [ht] at h
    · simp [ht] at h
      rwa [← h]

theorem normalizeRecord_toRaw (q : QuizRecord)
    (hq : pyStrip q.question = q.question)
    (hopts : ∀ o ∈ q.options, pyStrip o = o ∧ o ≠ "")
    (hans : ∀ x ∈ q.answer, pyStrip x = x ∧ x ≠ "")
    (hexp : pyStrip q.explanation = q.explanation)
    (himg : ∀ s, q.image = some s → s ≠ "") :
    normalizeRecord q.toRaw = q := by
  obtain ⟨qq, qo, qa, qe, qi, qm⟩ := q
  simp only [QuizRecord.toRaw] at *
  unfold normalizeRecord
  simp only [optsOf, OptionsField.vals, answerSetOf, QuizRecord.mk.injEq]
  refine ⟨hq, ?_, ?_, hexp, ?_, trivial⟩
  · by_cases he : qo = []
    · simp [he]
    · rw [if_neg (by simpa using he)]
      exact normOpts_self qo hopts
  · exact answerSetOf_set_self qa hans
  · cases qi with
    | none => rfl
    | some s =>
      have := himg s rfl
      simp [this]

theorem normalizeRecord_toRaw_eq (r : RawRecord) :
    normalizeRecord (normalizeRecord r).toRaw = normalizeRecord r := by
  apply normalizeRecord_toRaw
  · exact pyStrip_idem _
  · exact fun o ho => mem_normOpts_stripped (optsOf r) o ho
  · exact fun x hx => mem_answerSetOf_stripped r.answerF x hx
  · exact pyStrip_idem _
  · exact fun s hs => normalizeRecord_image_ne r s hs

/-- C5: for every input record in any tolerated shape, re-normalizing an
already-normalized record (re-injected into the input shape that
`normalize_quiz_records` itself emits) yields the same record:
`normalize(normalize(X)) == normalize(X)`. -/
theorem c5_normalize_idempotent (rs : List RawRecord) :
    normalize_quiz_records ((normalize_quiz_records rs).map QuizRecord.toRaw)
      = normalize_quiz_records rs := by
  unfold normalize_quiz_records
  simp only [List.map_map]
  exact List.map_congr_left fun r _ => by
    simpa [Function.comp] using normalizeRecord_toRaw_eq r

/-- C4 counterexample: a record carrying an explicit `multi = False` flag and
a two-element answer normalizes to `multi = false`, not to the OR
(`False or len(answer) > 1 = true`) the claim states: `bool(item.get("multi",
len(correct) > 1))` uses `len(correct) > 1` only as the absent-key default. -/
theorem c4_counterexample :
    (normalizeRecord ⟨"q", .list ["o1", "o2"], .absent, .list ["a", "b"],
        "", none, some false⟩).multi = false
    ∧ 1 < (normalizeRecord ⟨"q", .list ["o1", "o2"], .absent, .list ["a", "b"],
        "", none, some false⟩).answer.card := by
  constructor
  · rfl
  · decide

/-- C4 as amended: the normalizer's `multi` output equals the record's
explicit flag whenever the `"multi"` key is present (even when the flag is
false and the answer has more than one element); only when the key is absent
does it default to `len(answer) > 1`. -/
theorem c4_amended (r : RawRecord) :
    (∀ b, r.multiF = some b → (normalizeRecord r).multi = b)
    ∧ (r.multiF = none →
        (normalizeRecord r).multi = decide (1 < (normalizeRecord r).answer.card)) := by
  constructor
  · intro b hb
    simp [normalizeRecord, hb]
  · intro hb
    simp [normalizeRecord, hb]

/-- Witness for `c4_amended` at a concrete record with an explicit false flag
and a two-element answer. -/
theorem c4_amended_witness :
    (normalizeRecord ⟨"q2", .list ["x", "y"], .absent, .list ["x", "y"],
        "", none, some false⟩).multi = false :=
  (c4_amended ⟨"q2", .list ["x", "y"], .absent, .list ["x", "y"],
      "", none, some false⟩).1 false rfl

/-! ## AnswerResolver (`_map_correct_tokens_to_options`, `practice.py` lines 385-408) -/

/-- Python substring containment `n in h` on character lists. -/
def substrWithin (n : List Char) : List Char → Bool
  | [] => n.isEmpty
  | c :: t => n.isPrefixOf (c :: t) || substrWithin n t

/-- Lookup in `letter_map = {chr(ord('A') + i): opt for i, opt in
enumerate(options)}`: the keys are exactly the characters with code
`65 + i` for `i < len(options)`, so membership is `65 ≤ code` and
`code - 65 < len(options)`, and the value is `options[code - 65]`. -/
def letterHit (options : List String) (key : String) : Option String :=
  match key.data with
  | [c] => if 65 ≤ c.toNat then options[c.toNat - 65]? else none
  | _ => none

/-- `next((opt for opt, low in low_options if low == tl), None)`:
first option whose lowercasing equals the lowercased token. -/
def exactHit (options : List String) (tl : String) : Option String :=
  options.find? (fun opt => pyLower opt == tl)

/-- `next((opt for opt, low in low_options if tl in low or low in tl), None)`:
first option containing the token (case-insensitively) or contained in it. -/
def substringHit (options : List String) (tl : String) : Option String :=
  options.find? (fun opt =>
    substrWithin tl.data (pyLower opt).data || substrWithin (pyLower opt).data tl.data)

/-- Resolution of one raw token against the option list, with the source's
priority: blank token dropped; letter-map hit; exact case-insensitive match;
two-way case-insensitive substring match; otherwise dropped. -/
def resolveToken (options : List String) (t : String) : Option String :=
  let tStr := pyStrip t
  if tStr = "" then none
  else
    match letterHit options (pyUpper tStr) with
    | some opt => some opt
    | none =>
      match exactHit options (pyLower tStr) with
      | some opt => some opt
      | none => substringHit options (pyLower tStr)

/-- `_map_correct_tokens_to_options`: resolve every token of the set and
collect the matched options (tokens are drawn from a Python set and each
resolution adds independently to a result set, so the fold order is
irrelevant and `Finset.biUnion` is the exact model). -/
def mapCorrectTokensToOptions (tokens : Finset String) (options : List String) :
    Finset String :=
  if tokens = ∅ then ∅
  else tokens.biUnion (fun t =>
    match resolveToken options t with
    | some opt => {opt}
    | none => ∅)

theorem resolveToken_mem (options : List String) (t o : String)
    (h : resolveToken options t = some o) : o ∈ options := by
  unfold resolveToken at h
  by_cases hb : pyStrip t = ""
  · simp [hb] at h
  · simp only [hb, if_false] at h
    cases hl : letterHit options (pyUpper (pyStrip t)) with
    | some opt =>
      rw [hl] at h
      simp at h
      subst h
      unfold letterHit at hl
      cases hd : (pyUpper (pyStrip t)).data with
      | nil => rw [hd] at hl; simp at hl
      | cons c rest =>
        cases rest with
        | nil =>
          rw [hd] at hl
          by_cases hc : 65 ≤ c.toNat
          · simp only [hc, if_true] at hl
            have := List.getElem?_eq_some.mp hl
            obtain ⟨hlt, hget⟩ := this
            rw [← hget]
            exact List.getElem_mem hlt
          · simp [hc] at hl
        | cons d rest2 => rw [hd] at hl; simp at hl
    | none =>
      rw [hl] at h
      cases he : exactHit options (pyLower (pyStrip t)) with
      | some opt =>
        rw [he] at h
        simp at h
        subst h
        exact List.mem_of_find?_eq_some he
      | none =>
        rw [he] at h
        exact List.mem_of_find?_eq_some h

/-- C6: the resolver honours the fixed priority — a token whose uppercased
trimmed form is the single positional letter `chr(65 + i)` with
`i < len(options)` maps to `options[i]`; failing that, the first option
with an exact case-insensitive match; failing that, the first option with a
case-insensitive substring match in either direction; unmatched tokens are
silently dropped (they contribute nothing to the result); and the resolved
set is always a subset of the option list. -/
theorem c6_resolver_priority (options : List String) :
    (∀ tokens : Finset String,
        mapCorrectTokensToOptions tokens options ⊆ options.toFinset)
    ∧ (∀ t (c : Char), (pyUpper (pyStrip t)).data = [c] → 65 ≤ c.toNat →
        c.toNat - 65 < options.length →
        resolveToken options t = some (options.getD (c.toNat - 65) ""))
    ∧ (∀ t o, pyStrip t ≠ "" →
        letterHit options (pyUpper (pyStrip t)) = none →
        exactHit options (pyLower (pyStrip t)) = some o →
        resolveToken options t = some o)
    ∧ (∀ t o, pyStrip t ≠ "" →
        letterHit options (pyUpper (pyStrip t)) = none →
        exactHit options (pyLower (pyStrip t)) = none →
        substringHit options (pyLower (pyStrip t)) = some o →
        resolveToken options t = some o)
    ∧ (∀ t (tokens : Finset String), resolveToken options t = none →
        mapCorrectTokensToOptions (insert t tokens) options
          = mapCorrectTokensToOptions tokens options) := by
  refine ⟨?_, ?_, ?_, ?_, ?_⟩
  · intro tokens x hx
    unfold mapCorrectTokensToOptions at hx
    by_cases h0 : tokens = ∅
    · simp [h0] at hx
    · rw [if_neg h0] at hx
      obtain ⟨t, _, hxt⟩ := Finset.mem_biUnion.mp hx
      cases hr : resolveToken options t with
      | none => rw [hr] at hxt; simp at hxt
      | some o =>
        rw [hr] at hxt
        simp at hxt
        subst hxt
        exact List.mem_toFinset.mpr (resolveToken_mem options t x hr)
  · intro t c hdata hc hlt
    have hne : pyStrip t ≠ "" := by
      intro h
      rw [h] at hdata
      simp [pyUpper] at hdata
    unfold resolveToken
    rw [if_neg hne]
    have hlh : letterHit options (pyUpper (pyStrip t)) = some (options.getD (c.toNat - 65) "") := by
      unfold letterHit
      rw [hdata]
      simp only [hc, if_true]
      rw [List.getElem?_eq_getElem hlt]
      rw [List.getD_eq_getElem?_getD, List.getElem?_eq_getElem hlt]
      rfl
    rw [hlh]
  · intro t o hne hl he
    unfold resolveToken
    rw [if_neg hne, hl, he]
  · intro t o hne hl he hs
    unfold resolveToken
    rw [if_neg hne, hl, he, hs]
  · intro t tokens hr
    unfold mapCorrectTokensToOptions
    by_cases h0 : tokens = ∅
    · subst h0
      rw [if_neg (by simp), if_pos rfl]
      simp [hr]
    · rw [if_neg (by simp), if_neg h0, Finset.biUnion_insert, hr]
      simp

/-- Witness for `c6_resolver_priority`: the letter token `"B"` resolves to the
second option of a three-option list. -/
theorem c6_resolver_priority_witness :
    resolveToken ["Opt1", "Opt2", "Opt3"] "B" = some "Opt2" := by
  have h := (c6_resolver_priority ["Opt1", "Opt2", "Opt3"]).2.1 "B" 'B'
    (by decide) (by decide) (by decide)
  simpa using h

/-! ## NotesAnswerParser (`_read_notes_answer_and_reason`, `practice.py` lines 356-382) -/

/-- One of the separator characters of `_CORRECT_SEP_RE = re.compile(r"\s*[;|]\s*")`. -/
def isSepChar (c : Char) : Bool := c == ';' || c == '|'

/-- Leading whitespace of the suffix reaches a separator character: the
leftmost-match condition for one occurrence of `\s*[;|]\s*` starting here. -/
def wsThenSep (l : List Char) : Bool :=
  match l.dropWhile Char.isWhitespace with
  | c :: _ => isSepChar c
  | [] => false

/-- Faithful model of `re.split(r"\s*[;|]\s*", s)`: scanning left to right, a
separator occurrence is a (possibly empty) whitespace run, one `;` or `|`,
and the following whitespace run; everything between occurrences is a piece. -/
def reSplitSeps (l : List Char) (acc : List Char) : List (List Char) :=
  match l with
  | [] => [acc]
  | c :: t =>
    if wsThenSep (c :: t) then
      acc :: reSplitSeps ((((c :: t).dropWhile Char.isWhitespace).tail).dropWhile
        Char.isWhitespace) []
    else reSplitSeps t (acc ++ [c])
termination_by l.length
decreasing_by
  · have h1 := (List.dropWhile_sublist (l := (((c :: t).dropWhile Char.isWhitespace).tail))
      Char.isWhitespace).length_le
    have h2 := (List.dropWhile_sublist (l := (c :: t)) Char.isWhitespace).length_le
    have h3 := List.length_tail ((c :: t).dropWhile Char.isWhitespace)
    simp only [List.length_cons] at *
    omega
  · simp only [List.length_cons]
    omega

/-- Plain splitting at each single separator character (the spec-side
formulation: after trimming and dropping empty pieces this is the same as
splitting on any run of separators, with surrounding whitespace absorbed). -/
def splitSepChars (l : List Char) (acc : List Char) : List (List Char) :=
  match l with
  | [] => [acc]
  | c :: t => if isSepChar c then acc :: splitSepChars t [] else splitSepChars t (acc ++ [c])

/-- Trim every piece and drop the pieces that trim to nothing. -/
def stripFilterPieces (ps : List (List Char)) : List (List Char) :=
  (ps.map stripChars).filter (fun p => !p.isEmpty)

/-- Case-insensitive literal prefix match (the pattern chars are given in
lowercase); returns the remaining suffix on success. -/
def stripPrefixCI (pat : List Char) (l : List Char) : Option (List Char) :=
  match pat, l with
  | [], rest => some rest
  | _ :: _, [] => none
  | p :: ps, c :: cs => if c.toLower = p then stripPrefixCI ps cs else none

/-- Attempt of `re.search(r"answer\s*is\s*:\s*(.+)", line, re.IGNORECASE)` at
one fixed start position: literal `answer`, whitespace, literal `is`,
whitespace, `:`, then the captured group — the greedy `\s*` eats the
whitespace after the colon but backtracks one character if `.+` would
otherwise be empty, and fails when nothing at all follows the colon. -/
def matchAnswerAt (l : List Char) : Option (List Char) :=
  match stripPrefixCI ['a', 'n', 's', 'w', 'e', 'r'] l with
  | none => none
  | some r1 =>
    match stripPrefixCI ['i', 's'] (r1.dropWhile Char.isWhitespace) with
    | none => none
    | some r2 =>
      match r2.dropWhile Char.isWhitespace with
      | ':' :: rest =>
        if rest.isEmpty then none
        else some (rest.drop
          (min (rest.takeWhile Char.isWhitespace).length (rest.length - 1)))
      | _ => none

/-- Leftmost search of the `answer is:` pattern in one line (the model of
`re.search`, which tries successive start positions left to right). -/
def searchAnswerIs : List Char → Option (List Char)
  | [] => matchAnswerAt []
  | c :: t =>
    match matchAnswerAt (c :: t) with
    | some g => some g
    | none => searchAnswerIs t

/-- The token list `[t.strip() for t in _CORRECT_SEP_RE.split(answer_str) if t.strip()]`. -/
def splitTokens (s : String) : List String :=
  ((reSplitSeps s.data []).map (fun cs => pyStrip ⟨cs⟩)).filter (fun t => decide (t ≠ ""))

/-- Spec-side token list: trimmed non-empty pieces of splitting on the
separator characters themselves (equivalently, on any run of them). -/
def runSplitTokens (s : String) : List String :=
  ((splitSepChars s.data []).map (fun cs => pyStrip ⟨cs⟩)).filter (fun t => decide (t ≠ ""))

/-- The loop of `_read_notes_answer_and_reason` that finds the first line
with an `answer is:` match, returning its index and the stripped capture. -/
def findAnswerLine : List String → Option (Nat × String)
  | [] => none
  | ln :: rest =>
    match searchAnswerIs ln.data with
    | some g => some (0, pyStrip ⟨g⟩)
    | none => (findAnswerLine rest).map (fun p => (p.1 + 1, p.2))

/-- Splitting a character list at each newline (the model of Python
`str.splitlines()`; Python omits a final empty segment after a trailing
terminator, which is unobservable here because blank lines neither match
the answer pattern nor qualify as an explanation line). -/
def pySplitLinesAux (cur : List Char) : List Char → List (List Char)
  | [] => [cur.reverse]
  | c :: t =>
    if c = '\n' then cur.reverse :: pySplitLinesAux [] t
    else pySplitLinesAux (c :: cur) t

/-- Python `notes.splitlines()` as a list of strings. -/
def pySplitLines (notes : String) : List String :=
  (pySplitLinesAux [] notes.data).map (fun cs => (⟨cs⟩ : String))

/-- `_read_notes_answer_and_reason`: strip every line of the notes, find the
first `answer is:` line, split its capture into tokens, and take as the
reason the first non-empty line after the match; with no match the split
runs on the empty capture and yields no tokens. -/
def read_notes_answer_and_reason (notes : String) : Finset String × String :=
  let lines := (pySplitLines notes).map pyStrip
  match findAnswerLine lines with
  | none => ((splitTokens "").toFinset, "")
  | some (idx, ansStr) =>
    ((splitTokens ansStr).toFinset,
     ((lines.drop (idx + 1)).find? (fun ln => decide (ln ≠ ""))).getD "")

theorem sep_not_ws (c : Char) (h : isSepChar c = true) : Char.isWhitespace c = false := by
  unfold isSepChar at h
  rcases Bool.or_eq_true_iff.mp h with h1 | h1
  · rw [show c = ';' from by simpa using h1]; decide
  · rw [show c = '|' from by simpa using h1]; decide

theorem ws_not_sep (c : Char) (h : Char.isWhitespace c = true) : isSepChar c = false := by
  by_contra hc
  have := sep_not_ws c (by simpa using hc)
  rw [h] at this
  simp at this

theorem stripFilter_cons (p : List Char) (ps : List (List Char)) :
    stripFilterPieces (p :: ps)
      = if stripChars p = [] then stripFilterPieces ps
        else stripChars p :: stripFilterPieces ps := by
  unfold stripFilterPieces
  by_cases h : stripChars p = [] <;> simp [h, List.filter_cons]

theorem stripChars_all_ws (w : List Char) (hw : ∀ x ∈ w, Char.isWhitespace x) :
    stripChars w = [] := by
  have := stripChars_ws_append w [] hw
  simpa using this

theorem splitSepChars_push (w m acc : List Char) (hw : ∀ x ∈ w, isSepChar x = false) :
    splitSepChars (w ++ m) acc = splitSepChars m (acc ++ w) := by
  induction w generalizing acc with
  | nil => simp
  | cons x w' ih =>
    have hx : isSepChar x = false := hw x (by simp)
    show splitSepChars (x :: (w' ++ m)) acc = _
    rw [splitSepChars, if_neg (by simp [hx])]
    rw [ih (acc ++ [x]) (fun y hy => hw y (by simp [hy]))]
    simp

theorem stripFilter_split_ws_prefix (m : List Char) :
    ∀ w b : List Char, (∀ x ∈ w, Char.isWhitespace x) →
    stripFilterPieces (splitSepChars m (w ++ b)) = stripFilterPieces (splitSepChars m b) := by
  induction m with
  | nil =>
    intro w b hw
    show stripFilterPieces [w ++ b] = stripFilterPieces [b]
    rw [stripFilter_cons, stripFilter_cons, stripChars_ws_append w b hw]
  | cons c m' ih =>
    intro w b hw
    by_cases hc : isSepChar c = true
    · rw [splitSepChars, if_pos hc, splitSepChars, if_pos hc,
        stripFilter_cons, stripFilter_cons, stripChars_ws_append w b hw]
    · rw [splitSepChars, if_neg hc, splitSepChars, if_neg hc]
      rw [List.append_assoc]
      exact ih w (b ++ [c]) hw

theorem stripFilter_reSplit_aux (n : Nat) :
    ∀ l : List Char, l.length ≤ n → ∀ acc,
    stripFilterPieces (reSplitSeps l acc) = stripFilterPieces (splitSepChars l acc) := by
  induction n with
  | zero =>
    intro l hl acc
    cases l with
    | nil => rw [reSplitSeps, splitSepChars]
    | cons c t => simp at hl
  | succ n ih =>
    intro l hl acc
    cases l with
    | nil => rw [reSplitSeps, splitSepChars]
    | cons c t =>
      by_cases hws : wsThenSep (c :: t) = true
      · cases hd : (c :: t).dropWhile Char.isWhitespace with
        | nil =>
          unfold wsThenSep at hws
          rw [hd] at hws
          simp at hws
        | cons s r =>
          have hsep : isSepChar s = true := by
            unfold wsThenSep at hws
            rw [hd] at hws
            exact hws
          have hw : ∀ x ∈ (c :: t).takeWhile Char.isWhitespace, Char.isWhitespace x :=
            fun x hx => List.mem_takeWhile_imp hx
          have hdecomp : (c :: t) = (c :: t).takeWhile Char.isWhitespace ++ (s :: r) := by
            conv_lhs => rw [← List.takeWhile_append_dropWhile
              (p := Char.isWhitespace) (l := c :: t)]
            rw [hd]
          have hL : reSplitSeps (c :: t) acc
              = acc :: reSplitSeps (r.dropWhile Char.isWhitespace) [] := by
            rw [reSplitSeps, if_pos hws, hd]
            rfl
          have hR : splitSepChars (c :: t) acc
              = (acc ++ (c :: t).takeWhile Char.isWhitespace) :: splitSepChars r [] := by
            conv_lhs => rw [hdecomp]
            rw [splitSepChars_push _ _ _ (fun x hx => ws_not_sep x (hw x hx))]
            rw [splitSepChars, if_pos hsep]
          rw [hL, hR, stripFilter_cons, stripFilter_cons,
            stripChars_append_ws acc _ hw]
          have hlenr : (r.dropWhile Char.isWhitespace).length ≤ n := by
            have hr1 := (List.dropWhile_sublist (l := r) Char.isWhitespace).length_le
            have hd2 : (s :: r).length ≤ (c :: t).length := by
              rw [← hd]
              exact (List.dropWhile_sublist _).length_le
            simp only [List.length_cons] at hd2 hl
            omega
          have htail : stripFilterPieces (reSplitSeps (r.dropWhile Char.isWhitespace) [])
              = stripFilterPieces (splitSepChars r []) := by
            rw [ih _ hlenr []]
            conv_rhs => rw [← List.takeWhile_append_dropWhile
              (p := Char.isWhitespace) (l := r)]
            rw [splitSepChars_push _ _ _
              (fun x hx => ws_not_sep x (List.mem_takeWhile_imp hx))]
            have := stripFilter_split_ws_prefix (r.dropWhile Char.isWhitespace)
              (r.takeWhile Char.isWhitespace) []
              (fun x hx => List.mem_takeWhile_imp hx)
            simpa using this.symm
          rw [htail]
      · have hcsep : isSepChar c = false := by
          by_contra h
          have hct : isSepChar c = true := by simpa using h
          have hwsc : Char.isWhitespace c = false := sep_not_ws c hct
          unfold wsThenSep at hws
          rw [List.dropWhile_cons] at hws
          simp [hwsc, hct] at hws
        rw [reSplitSeps, if_neg hws, splitSepChars, if_neg (by simp [hcsep])]
        exact ih t (by simp only [List.length_cons] at hl; omega) (acc ++ [c])

theorem mk_eq_empty_iff (l : List Char) : (⟨l⟩ : String) = "" ↔ l = [] := by
  constructor
  · intro h
    have := congrArg String.data h
    simpa using this
  · intro h
    subst h
    rfl

theorem strTokens_of_pieces (ps : List (List Char)) :
    ((ps.map (fun cs => pyStrip ⟨cs⟩)).filter (fun t => decide (t ≠ "")))
      = (stripFilterPieces ps).map (fun cs => (⟨cs⟩ : String)) := by
  induction ps with
  | nil => rfl
  | cons p ps ih =>
    rw [stripFilter_cons]
    by_cases h : stripChars p = [] <;>
      simpa [List.filter_cons, pyStrip, mk_eq_empty_iff, h] using ih

theorem splitTokens_eq_runSplit (s : String) : splitTokens s = runSplitTokens s := by
  unfold splitTokens runSplitTokens
  rw [strTokens_of_pieces, strTokens_of_pieces,
    stripFilter_reSplit_aux s.data.length s.data (le_refl _) []]

theorem findAnswerLine_none (lines : List String)
    (h : ∀ ln ∈ lines, searchAnswerIs ln.data = none) : findAnswerLine lines = none := by
  induction lines with
  | nil => rfl
  | cons ln rest ih =>
    rw [findAnswerLine, h ln (by simp)]
    rw [ih (fun l hl => h l (by simp [hl]))]
    rfl

theorem findAnswerLine_spec (i : Nat) :
    ∀ (lines : List String) (g : List Char),
    i < lines.length →
    (∀ j, j < i → searchAnswerIs ((lines.getD j "").data) = none) →
    searchAnswerIs ((lines.getD i "").data) = some g →
    findAnswerLine lines = some (i, pyStrip ⟨g⟩) := by
  induction i with
  | zero =>
    intro lines g hlen hprev hi
    cases lines with
    | nil => simp at hlen
    | cons ln rest =>
      rw [show (ln :: rest).getD 0 "" = ln from rfl] at hi
      rw [findAnswerLine, hi]
  | succ i ih =>
    intro lines g hlen hprev hi
    cases lines with
    | nil => simp at hlen
    | cons ln rest =>
      have h0 : searchAnswerIs ln.data = none := by
        have := hprev 0 (Nat.succ_pos i)
        simpa using this
      rw [findAnswerLine, h0]
      have hrest := ih rest g (by simpa using hlen)
        (fun j hj => by simpa [List.getD_cons_succ] using hprev (j + 1) (by omega))
        (by simpa [List.getD_cons_succ] using hi)
      rw [hrest]
      rfl

/-- Computation-friendly companion of `read_notes_answer_and_reason` whose
token splitter is the structurally recursive `runSplitTokens`. -/
def readNotesRun (notes : String) : Finset String × String :=
  match findAnswerLine ((pySplitLines notes).map pyStrip) with
  | none => ((runSplitTokens "").toFinset, "")
  | some (idx, ansStr) =>
    ((runSplitTokens ansStr).toFinset,
     ((((pySplitLines notes).map pyStrip).drop (idx + 1)).find?
       (fun ln => decide (ln ≠ ""))).getD "")

theorem read_notes_eq_run (notes : String) :
    read_notes_answer_and_reason notes = readNotesRun notes := by
  unfold read_notes_answer_and_reason readNotesRun
  cases h : findAnswerLine ((pySplitLines notes).map pyStrip) with
  | none => simp only [h, splitTokens_eq_runSplit]
  | some p =>
    obtain ⟨idx, ansStr⟩ := p
    simp only [h, splitTokens_eq_runSplit]

/-- C7: for every notes text, the parser finds the first line with a
case-insensitive `answer is: <rest>` match (lines scanned top to bottom),
returns as tokens the trimmed non-empty pieces of splitting the captured
`<rest>` on the separator characters (equivalently, on any run of `;`/`|`),
and as explanation the first non-empty line strictly after the matched
line; when no line matches it returns the empty token set and the empty
explanation. -/
theorem c7_notes_grammar (notes : String) :
    ((∀ ln ∈ (pySplitLines notes).map pyStrip, searchAnswerIs ln.data = none) →
      read_notes_answer_and_reason notes = (∅, ""))
    ∧ (∀ i g, i < ((pySplitLines notes).map pyStrip).length →
        (∀ j, j < i →
          searchAnswerIs ((((pySplitLines notes).map pyStrip).getD j "").data) = none) →
        searchAnswerIs ((((pySplitLines notes).map pyStrip).getD i "").data) = some g →
        read_notes_answer_and_reason notes
          = ((runSplitTokens (pyStrip ⟨g⟩)).toFinset,
             ((((pySplitLines notes).map pyStrip).drop (i + 1)).find?
               (fun ln => decide (ln ≠ ""))).getD "")) := by
  constructor
  · intro hall
    rw [read_notes_eq_run]
    unfold readNotesRun
    rw [findAnswerLine_none _ hall]
    show ((runSplitTokens "").toFinset, ("" : String)) = (∅, "")
    decide
  · intro i g hlen hprev hi
    have hf := findAnswerLine_spec i ((pySplitLines notes).map pyStrip) g hlen hprev hi
    rw [read_notes_eq_run]
    unfold readNotesRun
    rw [hf]

/-- Witness for `c7_notes_grammar` on the specification scenario notes: the
first line matches with capture `B; C` and the explanation is the following
line. -/
theorem c7_notes_grammar_witness :
    read_notes_answer_and_reason "Answer is: B; C\nBecause B and C are valid"
      = ({"B", "C"}, "Because B and C are valid") := by
  have h := (c7_notes_grammar "Answer is: B; C\nBecause B and C are valid").2 0
    ("B; C".data) (by decide) (fun j hj => absurd hj (by omega)) (by decide)
  rw [h]
  decide

/-! ## Stored answers and correctness (`_submit_current`, `_check_current_answer`,
`_open_review_dialog`; `practice.py` lines 1614-1676 and 1709-1766) -/

/-- A slot of `self.user_answers`: `None`, a set of checked options (multi
items), or the chosen option string (single items). -/
inductive StoredAnswer
  | noAnswer
  | set (s : Finset String)
  | str (s : String)
deriving DecidableEq

/-- The correctness computed by `_submit_current` (the session's `answer`
value is a set after normalization, so the `list`/`str` coercion branches
collapse): a stored set is compared by set equality, a stored string by
membership, anything else — `None` — leaves `is_correct = False`. -/
def submitIsCorrect (chosen : StoredAnswer) (correct : Finset String) : Bool :=
  match chosen with
  | .set s => decide (s = correct)
  | .str s => decide (s ∈ correct)
  | .noAnswer => false

/-- The identical correctness computation of `_check_current_answer`. -/
def checkIsCorrect (chosen : StoredAnswer) (correct : Finset String) : Bool :=
  match chosen with
  | .set s => decide (s = correct)
  | .str s => decide (s ∈ correct)
  | .noAnswer => false

/-- The rendering of one stored answer by `_open_review_dialog`:
a set is comma-joined in sorted order, `None` renders as `"(no answer)"`,
a string renders as itself. -/
def joinSortedComma (s : Finset String) : String :=
  String.intercalate ", " (s.sort (· ≤ ·))

/-- The `is_correct_now` recomputation of `_open_review_dialog`. -/
def reviewIsCorrect (chosen : StoredAnswer) (correct : Finset String) : Bool :=
  match chosen with
  | .set s => decide (s = correct)
  | .noAnswer => false
  | .str s => decide (s ∈ correct)

/-- The `chosen` string of one review entry built by `_open_review_dialog`. -/
def reviewChosenStr (chosen : StoredAnswer) : String :=
  match chosen with
  | .set s => joinSortedComma s
  | .noAnswer => "(no answer)"
  | .str s => s

/-- The per-entry marker decision of `ReviewPopup._export_txt` (and of the
review dialog body): `is_incorrect = chosen.strip() and (chosen != correct)`
on the already-joined strings, `marker = "✗" if is_incorrect else "✓"`. -/
def exportMarker (chosen correct : String) : String :=
  if pyStrip chosen ≠ "" ∧ chosen ≠ correct then "✗" else "✓"

/-- C1 counterexample: an item whose answer set is empty, with a stored
answer that is also an empty set, is marked CORRECT by submit, check, and
the review scoring (`set() == set()`), contradicting the claim that an
empty stored answer is always incorrect and that an item with an empty
answer set can never be marked correct. -/
theorem c1_counterexample :
    submitIsCorrect (.set ∅) ∅ = true
    ∧ checkIsCorrect (.set ∅) ∅ = true
    ∧ reviewIsCorrect (.set ∅) ∅ = true := by
  decide

/-- C1 as amended: a `None` stored answer is always incorrect in submit,
check and review scoring; a blank stored string is incorrect whenever the
answer set contains no blank entry (normalized answers never do); and an
empty stored SET is judged correct exactly when the item's answer set is
itself empty — so an item with an empty answer set IS marked correct when
the user submits an empty selection. -/
theorem c1_amended (correct : Finset String) :
    submitIsCorrect .noAnswer correct = false
    ∧ checkIsCorrect .noAnswer correct = false
    ∧ reviewIsCorrect .noAnswer correct = false
    ∧ submitIsCorrect (.set ∅) correct = decide (correct = ∅)
    ∧ checkIsCorrect (.set ∅) correct = decide (correct = ∅)
    ∧ reviewIsCorrect (.set ∅) correct = decide (correct = ∅)
    ∧ ("" ∉ correct →
        submitIsCorrect (.str "") correct = false
        ∧ checkIsCorrect (.str "") correct = false
        ∧ reviewIsCorrect (.str "") correct = false) := by
  refine ⟨rfl, rfl, rfl, ?_, ?_, ?_, ?_⟩
  · unfold submitIsCorrect
    by_cases h : correct = ∅ <;> simp [h, eq_comm]
  · unfold checkIsCorrect
    by_cases h : correct = ∅ <;> simp [h, eq_comm]
  · unfold reviewIsCorrect
    by_cases h : correct = ∅ <;> simp [h, eq_comm]
  · intro h
    refine ⟨?_, ?_, ?_⟩ <;> simp [submitIsCorrect, checkIsCorrect, reviewIsCorrect, h]

/-- Witness for `c1_amended` at the answer set containing `"X"`. -/
theorem c1_amended_witness :
    submitIsCorrect (.str "") {"X"} = false
    ∧ submitIsCorrect (.set ∅) {"X"} = decide (({"X"} : Finset String) = ∅)
    ∧ submitIsCorrect .noAnswer {"X"} = false :=
  ⟨((c1_amended {"X"}).2.2.2.2.2.2 (by decide)).1,
   (c1_amended {"X"}).2.2.2.1,
   (c1_amended {"X"}).1⟩

/-- C8: the exported review marker does NOT recompute the §4.5 correctness
rule — `_export_txt` derives it from the already-joined strings as
`is_incorrect = chosen.strip() and (chosen != correct)`, so an empty stored
set (blank `chosen` string) always renders the marker `✓` even though the
recomputed correctness (used for the score header in the same file) is
false: for a multi item with `answer = {"X"}` and a stored empty set the
score counts it wrong while its entry is marked `✓`. -/
theorem c8_export_marker_bug :
    reviewIsCorrect (.set ∅) ({"X"} : Finset String) = false
    ∧ reviewChosenStr (.set ∅) = ""
    ∧ exportMarker (reviewChosenStr (.set ∅)) (joinSortedComma {"X"}) = "✓" := by
  have h1 : reviewChosenStr (.set ∅) = "" := by
    show joinSortedComma ∅ = ""
    unfold joinSortedComma
    rw [Finset.sort_empty]
    rfl
  refine ⟨by decide, h1, ?_⟩
  rw [h1]
  unfold exportMarker
  rw [if_neg (fun h => h.1 rfl)]

/-! ## Session construction and sampling (`QuizMainWindow.__init__` lines
1077-1101 and `_apply_quiz_settings` lines 1354-1364) -/

/-- `_apply_quiz_settings` on the index level: the session is a list of
references (indices) into the shared `raw_quiz` list — `quiz_data[:]`,
`random.sample` and `random.choice` all return the SAME dict objects, never
copies. The random draws are supplied as oracles: `shuffleOrder` for the
`random.shuffle` of the full copied list, `sampleIdx` for
`random.sample(quiz_data, k=num_questions)`, `choiceIdx` for the repeated
`random.choice`, `sampleAllOrder` for `random.sample(quiz_data,
k=len(quiz_data))`. -/
def applyQuizSettingsIdx (n numQuestions : Nat) (allowRepeats : Bool)
    (shuffleOrder sampleIdx choiceIdx sampleAllOrder : List Nat) : List Nat :=
  if n = 0 then []
  else if numQuestions ≤ 0 then shuffleOrder
  else if numQuestions ≤ n then sampleIdx
  else if allowRepeats then choiceIdx
  else sampleAllOrder

/-- Dereference the session's record indices against the shared store. -/
def sessionItems (bank : List QuizRecord) (idxs : List Nat) : List QuizRecord :=
  idxs.map (fun i => bank.getD i default)

/-- `random.shuffle(opts)`: an in-place rearrangement, modelled by applying
the position permutation the oracle chose. -/
def shuffleBy (p : List Nat) (l : List String) : List String :=
  p.map (fun i => l.getD i "")

/-- The `for q in self.quiz: random.shuffle(q["options"])` loop from
`__init__`: each session entry aliases a record of the shared store, so the
shuffle mutates the store at that index (sequentially; a record sampled
twice is shuffled twice). -/
def shuffleSessionOptions : List QuizRecord → List (Nat × List Nat) → List QuizRecord
  | store, [] => store
  | store, (i, p) :: rest =>
    shuffleSessionOptions
      (store.set i
        { store.getD i default with
          options := shuffleBy p (store.getD i default).options }) rest

/-- The state of the shared bank after constructing a session whose sampled
indices are `idxs` and whose per-item shuffle permutations are `optPerms`. -/
def constructSessionStore (bank : List QuizRecord) (idxs : List Nat)
    (optPerms : List (List Nat)) : List QuizRecord :=
  shuffleSessionOptions bank (idxs.zip optPerms)

theorem map_range_getD (l : List α) (d : α) :
    (List.range l.length).map (fun i => l.getD i d) = l := by
  apply List.ext_getElem
  · simp
  · intro i h1 h2
    simp only [List.getElem_map, List.getElem_range]
    rw [List.getD_eq_getElem?_getD, List.getElem?_eq_getElem h2]
    rfl

theorem shuffleBy_perm (p : List Nat) (l : List String)
    (hp : p.Perm (List.range l.length)) : (shuffleBy p l).Perm l := by
  have hmap := hp.map (fun i => l.getD i "")
  rw [map_range_getD l ""] at hmap
  exact hmap

theorem getD_set_eq (l : List α) (i : Nat) (a d : α) (k : Nat) :
    (l.set i a).getD k d = if i = k ∧ i < l.length then a else l.getD k d := by
  rw [List.getD_eq_getElem?_getD, List.getD_eq_getElem?_getD, List.getElem?_set]
  by_cases h1 : i = k
  · subst h1
    by_cases h2 : i < l.length
    · simp [h2]
    · simp only [h2, and_false, if_false, if_true, if_neg]
      rw [List.getElem?_eq_none (by omega)]
  · simp [h1]

theorem getD_mem (l : List α) (i : Nat) (d : α) (h : i < l.length) : l.getD i d ∈ l := by
  rw [List.getD_eq_getElem?_getD, List.getElem?_eq_getElem h]
  exact List.getElem_mem h

theorem sessionItems_perm (bank : List QuizRecord) (idxs : List Nat)
    (h : idxs.Perm (List.range bank.length)) : (sessionItems bank idxs).Perm bank := by
  have hm := h.map (fun i => bank.getD i default)
  rwa [map_range_getD bank default] at hm

/-- Field-wise relation between the mutated store and the original bank:
equal length, all non-`options` fields of every record unchanged, and every
record's `options` a permutation of the original. -/
def recordsAgree (new old : List QuizRecord) : Prop :=
  new.length = old.length ∧ ∀ j : Nat,
    (new.getD j default).question = (old.getD j default).question
    ∧ (new.getD j default).answer = (old.getD j default).answer
    ∧ (new.getD j default).explanation = (old.getD j default).explanation
    ∧ (new.getD j default).image = (old.getD j default).image
    ∧ (new.getD j default).multi = (old.getD j default).multi
    ∧ (new.getD j default).options.Perm (old.getD j default).options

theorem recordsAgree_refl (l : List QuizRecord) : recordsAgree l l :=
  ⟨rfl, fun _ => ⟨rfl, rfl, rfl, rfl, rfl, List.Perm.refl _⟩⟩

theorem recordsAgree_trans {a b c : List QuizRecord}
    (h1 : recordsAgree a b) (h2 : recordsAgree b c) : recordsAgree a c := by
  obtain ⟨hl1, hp1⟩ := h1
  obtain ⟨hl2, hp2⟩ := h2
  refine ⟨hl1.trans hl2, fun j => ?_⟩
  obtain ⟨a1, a2, a3, a4, a5, a6⟩ := hp1 j
  obtain ⟨b1, b2, b3, b4, b5, b6⟩ := hp2 j
  exact ⟨a1.trans b1, a2.trans b2, a3.trans b3, a4.trans b4, a5.trans b5, a6.trans b6⟩

theorem recordsAgree_optlen {a b : List QuizRecord} (h : recordsAgree a b) (k : Nat) :
    ((a.getD k default).options.length) = ((b.getD k default).options.length) :=
  ((h.2 k).2.2.2.2.2).length_eq

theorem shuffleStep_agrees (store : List QuizRecord) (i : Nat) (p : List Nat)
    (hp : p.Perm (List.range ((store.getD i default).options.length))) :
    recordsAgree
      (store.set i
        { store.getD i default with
          options := shuffleBy p (store.getD i default).options })
      store := by
  refine ⟨List.length_set store i _, fun j => ?_⟩
  rw [getD_set_eq]
  by_cases hk : i = j ∧ i < store.length
  · rw [if_pos hk]
    obtain ⟨hik, _⟩ := hk
    subst hik
    exact ⟨rfl, rfl, rfl, rfl, rfl, shuffleBy_perm p _ hp⟩
  · rw [if_neg hk]
    exact ⟨rfl, rfl, rfl, rfl, rfl, List.Perm.refl _⟩

theorem shuffleSessionOptions_agrees :
    ∀ (pairs : List (Nat × List Nat)) (store : List QuizRecord),
    (∀ pr ∈ pairs, pr.2.Perm (List.range ((store.getD pr.1 default).options.length))) →
    recordsAgree (shuffleSessionOptions store pairs) store := by
  intro pairs
  induction pairs with
  | nil =>
    intro store _
    exact recordsAgree_refl store
  | cons pr rest ih =>
    intro store h
    obtain ⟨i, p⟩ := pr
    have hp := h (i, p) (by simp)
    have hstep := shuffleStep_agrees store i p hp
    have hrest : ∀ q ∈ rest,
        q.2.Perm (List.range (((store.set i
          { store.getD i default with
            options := shuffleBy p (store.getD i default).options }).getD q.1
              default).options.length)) := by
      intro q hq
      rw [recordsAgree_optlen hstep q.1]
      exact h q (List.mem_cons_of_mem _ hq)
    have hih := ih _ hrest
    exact recordsAgree_trans hih hstep

/-- C2 counterexample: constructing a session over a one-item bank (full-bank
sampling, one non-trivial option shuffle) MUTATES the shared bank — the
session entries returned by `_apply_quiz_settings` alias the `raw_quiz`
dicts (`quiz_data[:]`, `random.sample` and `random.choice` copy no records),
so the in-place `random.shuffle(q["options"])` reorders the bank record's
own options list; no deep copy is taken. -/
theorem c2_counterexample :
    constructSessionStore [⟨"q", ["a", "b"], ∅, "", none, false⟩] [0] [[1, 0]]
      ≠ [⟨"q", ["a", "b"], ∅, "", none, false⟩] := by
  decide

/-- C2 as amended: session entries alias the shared bank records and the
per-session option shuffle mutates the bank in place; the mutation is
bounded — the bank keeps its length, every record keeps its question,
answer, explanation, image and multi fields, and each record's options list
is reordered to a permutation of the original (no element gained or
lost). -/
theorem c2_amended (bank : List QuizRecord) (idxs : List Nat)
    (optPerms : List (List Nat))
    (h : ∀ pr ∈ idxs.zip optPerms,
      pr.2.Perm (List.range ((bank.getD pr.1 default).options.length))) :
    (constructSessionStore bank idxs optPerms).length = bank.length
    ∧ ∀ j : Nat,
        ((constructSessionStore bank idxs optPerms).getD j default).question
          = (bank.getD j default).question
        ∧ ((constructSessionStore bank idxs optPerms).getD j default).answer
          = (bank.getD j default).answer
        ∧ ((constructSessionStore bank idxs optPerms).getD j default).explanation
          = (bank.getD j default).explanation
        ∧ ((constructSessionStore bank idxs optPerms).getD j default).image
          = (bank.getD j default).image
        ∧ ((constructSessionStore bank idxs optPerms).getD j default).multi
          = (bank.getD j default).multi
        ∧ ((constructSessionStore bank idxs optPerms).getD j default).options.Perm
            (bank.getD j default).options :=
  shuffleSessionOptions_agrees (idxs.zip optPerms) bank h

/-- Witness for `c2_amended` on the mutated one-item bank: the shuffled
record's options remain a permutation of the originals. -/
theorem c2_amended_witness :
    ((constructSessionStore [⟨"q", ["a", "b"], ∅, "", none, false⟩] [0]
        [[1, 0]]).getD 0 default).options.Perm ["a", "b"] :=
  ((c2_amended [⟨"q", ["a", "b"], ∅, "", none, false⟩] [0] [[1, 0]]
    (by
      intro pr hpr
      rw [show ([0].zip [[1, 0]]) = [(0, [1, 0])] from rfl] at hpr
      rw [List.mem_singleton] at hpr
      subst hpr
      decide)).2 0).2.2.2.2.2

/-- C3: the sampling policy of `_apply_quiz_settings` — `requestedCount = 0`
takes a shuffled full copy (size and multiset equal to the bank);
`0 < requestedCount ≤ |bank|` takes exactly `requestedCount` items with no
repeated source index; `requestedCount > |bank|` with repeats takes exactly
`requestedCount` items each drawn from the bank; `requestedCount > |bank|`
without repeats falls back to the full bank without replacement. The
oracle hypotheses are precisely the contracts of `random.shuffle`,
`random.sample` and `random.choice`. -/
theorem c3_sampling_policy (bank : List QuizRecord) (rc : Nat) (allowRepeats : Bool)
    (shuffleOrder sampleIdx choiceIdx sampleAllOrder : List Nat)
    (hbank : bank ≠ [])
    (hshuffle : shuffleOrder.Perm (List.range bank.length))
    (hsampleLen : sampleIdx.length = rc)
    (hsampleNodup : sampleIdx.Nodup)
    (hchoiceLen : choiceIdx.length = rc)
    (hchoiceMem : ∀ i ∈ choiceIdx, i < bank.length)
    (hall : sampleAllOrder.Perm (List.range bank.length)) :
    (rc = 0 →
      (sessionItems bank (applyQuizSettingsIdx bank.length rc allowRepeats
        shuffleOrder sampleIdx choiceIdx sampleAllOrder)).length = bank.length
      ∧ (sessionItems bank (applyQuizSettingsIdx bank.length rc allowRepeats
        shuffleOrder sampleIdx choiceIdx sampleAllOrder)).Perm bank)
    ∧ (0 < rc → rc ≤ bank.length →
      (sessionItems bank (applyQuizSettingsIdx bank.length rc allowRepeats
        shuffleOrder sampleIdx choiceIdx sampleAllOrder)).length = rc
      ∧ (applyQuizSettingsIdx bank.length rc allowRepeats
        shuffleOrder sampleIdx choiceIdx sampleAllOrder).Nodup)
    ∧ (bank.length < rc → allowRepeats = true →
      (sessionItems bank (applyQuizSettingsIdx bank.length rc allowRepeats
        shuffleOrder sampleIdx choiceIdx sampleAllOrder)).length = rc
      ∧ ∀ x ∈ sessionItems bank (applyQuizSettingsIdx bank.length rc allowRepeats
        shuffleOrder sampleIdx choiceIdx sampleAllOrder), x ∈ bank)
    ∧ (bank.length < rc → allowRepeats = false →
      (sessionItems bank (applyQuizSettingsIdx bank.length rc allowRepeats
        shuffleOrder sampleIdx choiceIdx sampleAllOrder)).Perm bank) := by
  have hn : 0 < bank.length := List.length_pos.mpr hbank
  refine ⟨?_, ?_, ?_, ?_⟩
  · intro h0
    have happ : applyQuizSettingsIdx bank.length rc allowRepeats
        shuffleOrder sampleIdx choiceIdx sampleAllOrder = shuffleOrder := by
      unfold applyQuizSettingsIdx
      rw [if_neg (by omega), if_pos (by omega)]
    rw [happ]
    have hperm := sessionItems_perm bank shuffleOrder hshuffle
    exact ⟨hperm.length_eq, hperm⟩
  · intro h1 h2
    have happ : applyQuizSettingsIdx bank.length rc allowRepeats
        shuffleOrder sampleIdx choiceIdx sampleAllOrder = sampleIdx := by
      unfold applyQuizSettingsIdx
      rw [if_neg (by omega), if_neg (by omega), if_pos h2]
    rw [happ]
    exact ⟨by simpa [sessionItems] using hsampleLen, hsampleNodup⟩
  · intro h1 h2
    have happ : applyQuizSettingsIdx bank.length rc allowRepeats
        shuffleOrder sampleIdx choiceIdx sampleAllOrder = choiceIdx := by
      unfold applyQuizSettingsIdx
      rw [if_neg (by omega), if_neg (by omega), if_neg (by omega), if_pos h2]
    rw [happ]
    constructor
    · simpa [sessionItems] using hchoiceLen
    · intro x hx
      obtain ⟨i, hi, hxi⟩ := List.mem_map.mp hx
      rw [← hxi]
      exact getD_mem bank i default (hchoiceMem i hi)
  · intro h1 h2
    have happ : applyQuizSettingsIdx bank.length rc allowRepeats
        shuffleOrder sampleIdx choiceIdx sampleAllOrder = sampleAllOrder := by
      unfold applyQuizSettingsIdx
      rw [if_neg (by omega), if_neg (by omega), if_neg (by omega), if_neg (by simp [h2])]
    rw [happ]
    exact sessionItems_perm bank sampleAllOrder hall

/-- Witness for `c3_sampling_policy` at a one-item bank with
`requestedCount = 0` and valid concrete oracles. -/
theorem c3_sampling_policy_witness :
    (sessionItems [(default : QuizRecord)]
      (applyQuizSettingsIdx 1 0 true [0] [] [] [0])).Perm [(default : QuizRecord)] :=
  ((c3_sampling_policy [(default : QuizRecord)] 0 true [0] [] [] [0]
    (by simp) (by decide) rfl (by decide) rfl
    (fun i hi => absurd hi (by simp)) (by decide)).1 rfl).2

/-! ## Timer and break handling (`_take_break`, `_update_break_enabled`,
`practice.py` lines 1394-1425) -/

/-- The session state relevant to the break feature: the configured timer
total, the live countdown value, whether the countdown is running, whether
the single break has been used, and the `allow_breaks` setting. -/
structure EngineState where
  totalSeconds : Nat
  remainingSeconds : Nat
  timerActive : Bool
  breakTaken : Bool
  allowBreaks : Bool
deriving DecidableEq

/-- `_take_break`: guard
`if self.break_taken or self.total_seconds <= 0 or not self.allow_breaks: return`,
then a confirmation dialog (declining returns unchanged), then — the modal
`BreakDialog` running its own 900-second countdown to completion while the
main timer is stopped — set `break_taken = True` and restart the main timer
only if it was running and `remaining_seconds > 0` (the countdown value
itself is untouched, so it resumes from its paused value). -/
def takeBreak (s : EngineState) (confirm : Bool) : EngineState :=
  if s.breakTaken || decide (s.totalSeconds ≤ 0) || !s.allowBreaks then s
  else if !confirm then s
  else
    { s with
      breakTaken := true,
      timerActive := s.timerActive && decide (0 < s.remainingSeconds) }

/-- C9: `startBreak` is a no-op unless breaks are allowed, a timer is
configured, and the break has not been taken; a completed break sets
`breakTaken` permanently (any later call is a no-op even with time left),
leaves the paused countdown value untouched, and resumes the countdown
exactly when it was running before with time remaining. -/
theorem c9_break_once (s : EngineState) (c : Bool) :
    (¬(s.allowBreaks = true ∧ 0 < s.totalSeconds ∧ s.breakTaken = false) →
      takeBreak s c = s)
    ∧ (s.allowBreaks = true → 0 < s.totalSeconds → s.breakTaken = false →
        (takeBreak s true).breakTaken = true
        ∧ (takeBreak s true).remainingSeconds = s.remainingSeconds
        ∧ (takeBreak s true).totalSeconds = s.totalSeconds
        ∧ (takeBreak s true).timerActive
            = (s.timerActive && decide (0 < s.remainingSeconds))
        ∧ ∀ c2, takeBreak (takeBreak s true) c2 = takeBreak s true) := by
  constructor
  · intro h
    unfold takeBreak
    have hg : (s.breakTaken || decide (s.totalSeconds ≤ 0) || !s.allowBreaks) = true := by
      cases hbt : s.breakTaken with
      | true => simp [hbt]
      | false =>
        cases hab : s.allowBreaks with
        | false => simp [hab]
        | true =>
          have hts : s.totalSeconds = 0 := by
            by_contra hts
            exact h ⟨hab, by omega, hbt⟩
          simp [hbt, hab, hts]
    rw [if_pos hg]
  · intro ha ht hb
    have hg : (s.breakTaken || decide (s.totalSeconds ≤ 0) || !s.allowBreaks) = false := by
      rw [hb, ha]
      simp only [Bool.false_or, Bool.not_true, Bool.or_false, decide_eq_false_iff_not]
      omega
    have hstep : takeBreak s true
        = { s with
            breakTaken := true,
            timerActive := s.timerActive && decide (0 < s.remainingSeconds) } := by
      unfold takeBreak
      rw [if_neg (by rw [hg]; simp), if_neg (by simp)]
    refine ⟨by rw [hstep], by rw [hstep], by rw [hstep], by rw [hstep], ?_⟩
    intro c2
    rw [hstep]
    unfold takeBreak
    rw [if_pos (by simp)]

/-- Witness for `c9_break_once`: a 1200-second session with 500 seconds left
takes its one break; the second call afterwards changes nothing. -/
theorem c9_break_once_witness :
    (takeBreak ⟨1200, 500, true, false, true⟩ true).breakTaken = true
    ∧ takeBreak (takeBreak ⟨1200, 500, true, false, true⟩ true) true
        = takeBreak ⟨1200, 500, true, false, true⟩ true :=
  ⟨((c9_break_once ⟨1200, 500, true, false, true⟩ true).2 rfl (by decide) rfl).1,
   ((c9_break_once ⟨1200, 500, true, false, true⟩ true).2 rfl (by decide) rfl).2.2.2.2 true⟩

/-! ## Slide compilation (`extract_images_and_prepare_quiz`, `practice.py`
lines 411-453; image writing is file I/O outside the model, so the item's
`image` field is compiled as absent) -/

/-- One loop iteration of `extract_images_and_prepare_quiz` on a slide that
produced `questionText` and `options`: skip the slide when either is falsy,
otherwise parse the notes, resolve the tokens, assemble the raw dict with
`multi = (len(raw_tokens) > 1) or (len(correct_set) > 1)`, and normalize
it (the function ends with `normalize_quiz_records`). -/
def compileSlide (questionText : String) (options : List String)
    (notes : String) : Option QuizRecord :=
  if questionText = "" ∨ options.isEmpty then none
  else
    some (normalizeRecord
      ⟨pyStrip questionText, .list options, .absent,
       .set (mapCorrectTokensToOptions (read_notes_answer_and_reason notes).1 options),
       pyStrip (read_notes_answer_and_reason notes).2, none,
       some (decide (1 < (read_notes_answer_and_reason notes).1.card)
         || decide (1 < (mapCorrectTokensToOptions
              (read_notes_answer_and_reason notes).1 options).card))⟩)

theorem normalizeRecord_multi_some (r : RawRecord) (b : Bool)
    (hb : r.multiF = some b) : (normalizeRecord r).multi = b := by
  simp [normalizeRecord, hb]

/-- C10: a compiled item's `multi` flag is true whenever the notes yielded
more than one raw token, even when at most one token resolved — so an item
can be multi (graded by exact set equality) while its answer set has one or
zero elements, as the concrete slide with options `["Opt1"]` and notes
`Answer is: X; Y` shows (two tokens, none resolving, `multi = true`,
`answer = ∅`). -/
theorem c10_compile_multi :
    (∀ (q : String) (opts : List String) (notes : String) (item : QuizRecord),
      compileSlide q opts notes = some item →
      1 < (read_notes_answer_and_reason notes).1.card →
      item.multi = true)
    ∧ ∃ it : QuizRecord, compileSlide "Q" ["Opt1"] "Answer is: X; Y" = some it
        ∧ it.multi = true ∧ it.answer.card ≤ 1 := by
  constructor
  · intro q opts notes item hc hcard
    unfold compileSlide at hc
    by_cases hg : q = "" ∨ opts.isEmpty
    · rw [if_pos hg] at hc
      exact absurd hc (by simp)
    · rw [if_neg hg] at hc
      have := Option.some.inj hc
      rw [← this]
      rw [normalizeRecord_multi_some _ _ rfl]
      simp [hcard]
  · refine ⟨⟨"Q", ["Opt1"], ∅, "", none, true⟩, ?_, rfl, by decide⟩
    have hnotes : read_notes_answer_and_reason "Answer is: X; Y" = ({"X", "Y"}, "") := by
      rw [read_notes_eq_run]
      decide
    unfold compileSlide
    rw [if_neg (by simp), hnotes]
    decide

/-- Witness for `c10_compile_multi` at the concrete slide: the compiled item
is multi although its answer set is empty. -/
theorem c10_compile_multi_witness :
    (⟨"Q", ["Opt1"], ∅, "", none, true⟩ : QuizRecord).multi = true :=
  c10_compile_multi.1 "Q" ["Opt1"] "Answer is: X; Y"
    ⟨"Q", ["Opt1"], ∅, "", none, true⟩
    (by
      have hnotes : read_notes_answer_and_reason "Answer is: X; Y"
          = ({"X", "Y"}, "") := by
        rw [read_notes_eq_run]
        decide
      unfold compileSlide
      rw [if_neg (by simp), hnotes]
      decide)
    (by
      rw [read_notes_eq_run]
      decide)
